import Mathlib

/-!
Verification development for the beancount-automation repository.

The transaction parser (src/parser/src/lib.rs), the ledger renderer and the
GitHub content store (src/repository/src/github_store.rs) are embedded
shallowly over `List Char`.  Rust strings become `List Char`; the regex
`TRANSACTION_REGEX` is embedded as an explicit leftmost-first matcher whose
ordered branches reproduce the preference order of the optional groups of

  ((?P<date>\d{4}-\d{2}-\d{2})\s+)?@(?P<payee>\w+)\s+((?P<narration>\w+)\s+)?
  (?P<amount>\d+\.\d+)(\s+(?P<currency>[A-Z]{3}))?\s+(?P<from>[a-zA-Z:]+)
  \s*>\s*(?P<to>[a-zA-Z:]+)

Backtracking inside a repeated character class is impossible for this regex
because every repetition is followed by a requirement on a disjoint class, so
maximal munch plus the ordered optional-group branches is an exact model.
Character classes are taken at their ASCII meaning.  The `f32` amount is
modelled as an exact decimal value in canonical form, and the `{:.2}`
formatting as decimal rounding to two places; the remote store transport (base64) is abstracted away and the
GET/CREATE/PUT responses are inputs of the `save` model.
-/

namespace Beancount

/-- Rust strings, embedded as lists of characters. -/
abbrev Str := List Char

/-- ASCII word character, modelling the regex class `\w`. -/
def isWordChar (c : Char) : Bool := c.isAlpha || c.isDigit || c = '_'

/-- ASCII whitespace, modelling the regex class `\s`. -/
def isWs (c : Char) : Bool := c.isWhitespace

/-- The regex class `[a-zA-Z:]` used for the account captures. -/
def isAcctChar (c : Char) : Bool := c.isAlpha || c = ':'

/-- Maximal munch of one-or-more characters satisfying `p` (a regex `p+`). -/
def takeWhile1 (p : Char → Bool) (cs : Str) : Option (Str × Str) :=
  if cs.takeWhile p = [] then none else some (cs.takeWhile p, cs.dropWhile p)

/-- Matches `\d{4}-\d{2}-\d{2}` exactly at the head of the input. -/
def takeDate : Str → Option (Str × Str)
  | a :: b :: c :: d :: e :: f :: g :: h :: i :: j :: rest =>
    if a.isDigit && b.isDigit && c.isDigit && d.isDigit && e = '-' &&
       f.isDigit && g.isDigit && h = '-' && i.isDigit && j.isDigit then
      some ([a, b, c, d, e, f, g, h, i, j], rest)
    else none
  | _ => none

/-- Matches the amount pattern `\d+\.\d+` at the head of the input. -/
def takeAmount (cs : Str) : Option (Str × Str) :=
  match takeWhile1 Char.isDigit cs with
  | none => none
  | some (w1, r1) =>
    match r1 with
    | '.' :: r2 =>
      match takeWhile1 Char.isDigit r2 with
      | none => none
      | some (w2, r3) => some (w1 ++ '.' :: w2, r3)
    | _ => none

/-- Matches `(?P<from>[a-zA-Z:]+)\s*>\s*(?P<to>[a-zA-Z:]+)`. -/
def matchFromTo (cs : Str) : Option (Str × Str) :=
  match takeWhile1 isAcctChar cs with
  | none => none
  | some (f, r1) =>
    match r1.dropWhile isWs with
    | '>' :: r2 =>
      match takeWhile1 isAcctChar (r2.dropWhile isWs) with
      | none => none
      | some (t, _) => some (f, t)
    | _ => none

/-- The captures contributed by the part of the regex after the narration. -/
structure TailCaps where
  amount : Str
  currency : Option Str
  fromCap : Str
  toCap : Str
deriving DecidableEq, Repr

/-- The branch of the optional group `(\s+(?P<currency>[A-Z]{3}))?` that takes
the currency, continued by the mandatory `\s+` and the account pair. -/
def currencyBranch (r1 : Str) : Option (Str × Str × Str) :=
  match takeWhile1 isWs r1 with
  | none => none
  | some (_, r2) =>
    match r2 with
    | c1 :: c2 :: c3 :: r3 =>
      if c1.isUpper && c2.isUpper && c3.isUpper then
        match takeWhile1 isWs r3 with
        | none => none
        | some (_, r4) =>
          match matchFromTo r4 with
          | none => none
          | some (f, t) => some ([c1, c2, c3], f, t)
      else none
    | _ => none

/-- Matches the regex from the amount on: the currency branch is preferred,
mirroring the greedy optional group. -/
def matchTail (cs : Str) : Option TailCaps :=
  match takeAmount cs with
  | none => none
  | some (amt, r1) =>
    match currencyBranch r1 with
    | some (cur, f, t) => some ⟨amt, some cur, f, t⟩
    | none =>
      match takeWhile1 isWs r1 with
      | none => none
      | some (_, r2) =>
        match matchFromTo r2 with
        | none => none
        | some (f, t) => some ⟨amt, none, f, t⟩

/-- The captures contributed by the regex from the payee on. -/
structure CoreCaps where
  payee : Str
  narration : Option Str
  tail : TailCaps
deriving DecidableEq, Repr

/-- The branch of `((?P<narration>\w+)\s+)?` that takes a narration word. -/
def narrBranch (payee : Str) (r2 : Str) : Option CoreCaps :=
  match takeWhile1 isWordChar r2 with
  | none => none
  | some (narr, r3) =>
    match takeWhile1 isWs r3 with
    | none => none
    | some (_, r4) =>
      match matchTail r4 with
      | none => none
      | some tl => some ⟨payee, some narr, tl⟩

/-- Matches `@(?P<payee>\w+)\s+((?P<narration>\w+)\s+)?` followed by the tail,
with the narration branch preferred (greedy optional group). -/
def matchCore (cs : Str) : Option CoreCaps :=
  match cs with
  | '@' :: r0 =>
    match takeWhile1 isWordChar r0 with
    | none => none
    | some (payee, r1) =>
      match takeWhile1 isWs r1 with
      | none => none
      | some (_, r2) =>
        match narrBranch payee r2 with
        | some c => some c
        | none =>
          match matchTail r2 with
          | none => none
          | some tl => some ⟨payee, none, tl⟩
  | _ => none

/-- The full capture set of `TRANSACTION_REGEX`; a field is `none` when the
corresponding optional group did not participate in the match. -/
structure Caps where
  date : Option Str
  payee : Option Str
  narration : Option Str
  amount : Option Str
  currency : Option Str
  fromCap : Option Str
  toCap : Option Str
deriving DecidableEq, Repr

/-- Assembles the capture groups of one successful match. -/
def assemble (d : Option Str) (c : CoreCaps) : Caps :=
  ⟨d, some c.payee, c.narration, some c.tail.amount, c.tail.currency,
   some c.tail.fromCap, some c.tail.toCap⟩

/-- The branch of `((?P<date>\d{4}-\d{2}-\d{2})\s+)?` that takes a date. -/
def dateBranch (cs : Str) : Option Caps :=
  match takeDate cs with
  | none => none
  | some (d, r1) =>
    match takeWhile1 isWs r1 with
    | none => none
    | some (_, r2) => (matchCore r2).map (assemble (some d))

/-- Attempts a match at one fixed start offset, date branch first. -/
def matchAt (cs : Str) : Option Caps :=
  match dateBranch cs with
  | some caps => some caps
  | none => (matchCore cs).map (assemble none)

/-- Leftmost match of `TRANSACTION_REGEX`: the first offset at which a match
exists, as with `Regex::captures` of the Rust regex crate. -/
def capturesOf : Str → Option Caps
  | [] => matchAt []
  | c :: cs =>
    match matchAt (c :: cs) with
    | some caps => some caps
    | none => capturesOf cs

/-- Numeric value of a digit string. -/
def digitsToNat (cs : Str) : Nat :=
  cs.foldl (fun n c => 10 * n + (c.toNat - 48)) 0

/-- A nonnegative decimal number in canonical form: an integer part, and a
fraction numerator with its digit count, trailing zero digits stripped.  Two
decimal tokens denote the same value exactly when they map to the same
`Amount`, which models the value quotient the `f32` field of the source
imposes on the tokens the regex admits. -/
structure Amount where
  units : Nat
  fracNum : Nat
  fracLen : Nat
deriving DecidableEq, Repr

/-- Strips trailing zero digits from a fraction digit string. -/
def stripZeros (w : Str) : Str :=
  (w.reverse.dropWhile (fun c => c = '0')).reverse

/-- Models `str::parse::<f32>` on the token shapes the regex admits, with the
exact decimal value in place of the nearest binary float. -/
def parseDecimal? (cs : Str) : Option Amount :=
  let intPart := cs.takeWhile Char.isDigit
  let rest := cs.dropWhile Char.isDigit
  if intPart = [] then none
  else
    match rest with
    | [] => some ⟨digitsToNat intPart, 0, 0⟩
    | '.' :: frac =>
      if frac ≠ [] ∧ frac.all Char.isDigit then
        some ⟨digitsToNat intPart, digitsToNat (stripZeros frac),
              (stripZeros frac).length⟩
      else none
    | _ => none

/-- The transaction record of src/parser/src/lib.rs, with the `f32` amount
modelled as an exact decimal value. -/
structure Transaction where
  date : Str
  payee : Str
  narration : Str
  amount : Amount
  currency : Str
  from_account : Str
  to_account : Str
deriving DecidableEq, Repr

/-- Rust `str::split` on one separator character: `rustSplit sep s` lists the
chunks of `s` between occurrences of `sep`, empty chunks included. -/
def rustSplit (sep : Char) : Str → List Str
  | [] => [[]]
  | c :: cs =>
    if c = sep then [] :: rustSplit sep cs
    else
      match rustSplit sep cs with
      | [] => [[c]]
      | w :: ws => (c :: w) :: ws

/-- Models `Transaction::year` up to the `unwrap`: `self.date.split('-').next()`. -/
def yearSplit (t : Transaction) : Option Str :=
  (rustSplit '-' t.date).head?

/-- Models `Transaction::year`; the `unwrap` is modelled by a default that theorem
C9 proves unreachable. -/
def year (t : Transaction) : Str :=
  match yearSplit t with
  | some y => y
  | none => []

/-- The value of an amount scaled by one hundred and rounded to the nearest
integer, the rounding that `{:.2}` performs on the amount. -/
def fmt2Round (a : Amount) : Nat :=
  if a.fracLen ≤ 2 then a.units * 100 + a.fracNum * 10 ^ (2 - a.fracLen)
  else a.units * 100 +
    (2 * a.fracNum + 10 ^ (a.fracLen - 2)) / (2 * 10 ^ (a.fracLen - 2))

/-- Models `{:.2}` formatting of the amount: decimal rounding to two places. -/
def fmt2 (q : Amount) : Str :=
  let n : Nat := fmt2Round q
  (Nat.repr (n / 100)).data ++
    '.' :: (if n % 100 < 10 then '0' :: (Nat.repr (n % 100)).data
            else (Nat.repr (n % 100)).data)

/-- Models `impl From<Transaction> for String`: the two-line ledger rendering with
two spaces of indent and eight spaces between account and amount. -/
def toLedgerText (t : Transaction) : Str :=
  t.date ++ " * \"".data ++ t.payee ++ "\" \"".data ++ t.narration ++
    "\"\n  ".data ++ t.from_account ++ "        -".data ++ fmt2 t.amount ++
    " ".data ++ t.currency ++ "\n  ".data ++ t.to_account ++
    "        ".data ++ fmt2 t.amount ++ " ".data ++ t.currency ++ "\n".data

/-- The parser settings: a default currency and the alias table, the Rust
`HashMap` modelled as an association list with unique keys. -/
structure Settings where
  currency : Str
  accounts : List (Str × Str)

/-- The error text of `Parser::parse_account` for an unmapped alias. -/
def unknownAccountMsg (a : Str) : Str :=
  "account ".data ++ a ++ " doesn't exist in current setting".data

/-- Models `Parser::parse_account`: alias lookup in `settings.accounts`. -/
def parse_account (s : Settings) (matched : Str) : Except Str Str :=
  match s.accounts.lookup matched with
  | some account => .ok account
  | none => .error (unknownAccountMsg matched)

/-- Models `Parser::parse_caps`; `today` stands for `Local::now().format("%Y-%m-%d")`. -/
def parse_caps (s : Settings) (today : Str) (caps : Caps) : Except Str Transaction :=
  let date := caps.date.getD today
  match caps.payee with
  | none => .error "Could not get payee from input".data
  | some payee =>
    let narration := caps.narration.getD []
    match caps.amount with
    | none => .error "Could not get amount from input".data
    | some amountTok =>
      match parseDecimal? amountTok with
      | none => .error "invalid float literal".data
      | some amount =>
        let currency := caps.currency.getD "AUD".data
        match caps.fromCap with
        | none => .error "Could not get from_account from input".data
        | some f =>
          match parse_account s f with
          | .error e => .error e
          | .ok from_account =>
            match caps.toCap with
            | none => .error "Could not get to_account from input".data
            | some tt =>
              match parse_account s tt with
              | .error e => .error e
              | .ok to_account =>
                .ok ⟨date, payee, narration, amount, currency, from_account, to_account⟩

/-- The usage message returned by `Parser::parse` when the regex rejects. -/
def invalidFormatMsg : Str :=
  ("Invalid input format, please follow examples here:\n" ++
   "* 2021-09-08 @KFC hamburger 12.40 AUD Assets:MasterCard:CBA > Expense:Food\n" ++
   "* @KFC hamburger 12.40 AUD Assets:MasterCard:CBA > Expense:Food\n" ++
   "* @Costco lunch 8.97 cba > food\n" ++
   "* @KFL 22.34 cba > food*\n").data

/-- Models `Parser::parse`: reject unless the regex matches, then classify the
captures. -/
def parse (s : Settings) (today : Str) (input : Str) : Except Str Transaction :=
  if (capturesOf input).isSome = false then .error invalidFormatMsg
  else
    match capturesOf input with
    | none => .error "Invalid input.".data
    | some caps => parse_caps s today caps

/-- A response of the remote content store to a GET of the ledger path.  The
`ok` case carries the base64-decoded UTF-8 content and the version tag `sha`;
the transport encoding itself is abstracted away. -/
inductive GetResp where
  | ok (content : Str) (sha : Str)
  | notFound
  | other (status : Nat)
deriving DecidableEq, Repr

/-- The remote responses one `GithubStore::save` call can consume: the first
GET, the status of the CREATE issued on not-found, the re-GET after the
CREATE, and the status of the final PUT.  A 409 PUT status is the stale
version tag rejection of the optimistic-concurrency write. -/
structure SaveScript where
  firstGet : GetResp
  createStatus : Nat
  secondGet : GetResp
  putStatus : Nat
deriving DecidableEq, Repr

/-- Models `GithubStore::create_file`: uploads an empty blob; any status other than
CREATED or OK is an error naming the path. -/
def create_file (status : Nat) (path : Str) : Except Str Str :=
  if status = 201 ∨ status = 200 then .ok []
  else .error ("Failed to create new file ".data ++ path)

/-- Models `GithubStore::save`.  Returns the content of the PUT request body when the
control flow reaches the PUT (`none` when it fails earlier), paired with the
call result. -/
def save (sc : SaveScript) (t : Transaction) : Option Str × Except Str Str :=
  let path := year t ++ ".bean".data
  let fetched : Except Str (Str × Str) :=
    match sc.firstGet with
    | .ok c sha => .ok (c, sha)
    | .notFound =>
      match create_file sc.createStatus path with
      | .error e => .error e
      | .ok _ =>
        match sc.secondGet with
        | .ok c sha => .ok (c, sha)
        | _ => .error "error decoding response body".data
    | .other _ => .error "Failed to get file content".data
  match fetched with
  | .error e => (none, .error e)
  | .ok (content, _sha) =>
    let transaction_text := toLedgerText t
    let newContent := content ++ "\n".data ++ transaction_text
    if sc.putStatus = 200 ∨ sc.putStatus = 201 then
      (some newContent, .ok transaction_text)
    else
      (some newContent, .error "Failed to save transaction!".data)

/-! Concrete fixtures used by the counterexamples and witnesses.  The alias
table is the one of the repository test suite. -/

/-- The settings used by the repository tests. -/
def settings0 : Settings :=
  ⟨"AUD".data,
   [("cba".data, "Assets:MasterCard:CBA".data),
    ("amex".data, "Liabilities:CreditCard:AMEX:Liang".data),
    ("food".data, "Expense:Food".data)]⟩

/-- The same alias table with a configured default currency of USD. -/
def settingsUSD : Settings :=
  ⟨"USD".data,
   [("cba".data, "Assets:MasterCard:CBA".data),
    ("amex".data, "Liabilities:CreditCard:AMEX:Liang".data),
    ("food".data, "Expense:Food".data)]⟩

/-- A fixed processing date standing in for `Local::now`. -/
def today0 : Str := "2025-01-01".data

/-- The date field group of the spec example input. -/
def grpDate : Str := "2021-09-08".data

/-- The payee-plus-narration field group of the spec example input. -/
def grpPayee : Str := "@KFC hamburger".data

/-- The amount-plus-currency field group of the spec example input. -/
def grpAmount : Str := "12.40 AUD".data

/-- The account-pair field group of the spec example input, arrow adjacency
kept intact. -/
def grpAccounts : Str := "cba > food".data

/-- Joins field groups with single spaces, giving one input line. -/
def joinSp : List Str → Str
  | [] => []
  | [x] => x
  | x :: xs => x ++ ' ' :: joinSp xs

/-- The transaction the spec example parses to under the explicit date. -/
def txExample : Transaction :=
  ⟨"2021-09-08".data, "KFC".data, "hamburger".data, ⟨12, 4, 1⟩, "AUD".data,
   "Assets:MasterCard:CBA".data, "Expense:Food".data⟩

/-- The transaction the spec example parses to when the date token is not
captured and the processing-date default applies. -/
def txExampleDefDate : Transaction :=
  ⟨today0, "KFC".data, "hamburger".data, ⟨12, 4, 1⟩, "AUD".data,
   "Assets:MasterCard:CBA".data, "Expense:Food".data⟩

/-- Checks one permutation of the four field groups: the canonical order must
parse to the transaction with the explicit date; the order with the date after
the account pair parses but falls back to the default date; every other
permutation must be rejected. -/
def permCheck (p : List Str) : Bool :=
  let r := parse settings0 today0 (joinSp p)
  if p = [grpDate, grpPayee, grpAmount, grpAccounts] then
    match r with
    | .ok t => decide (t = txExample)
    | .error _ => false
  else if p = [grpPayee, grpAmount, grpAccounts, grpDate] then
    match r with
    | .ok t => decide (t = txExampleDefDate)
    | .error _ => false
  else
    match r with
    | .error _ => true
    | .ok _ => false

/-- All ways of inserting `x` into one list, used to enumerate permutations
structurally so that the enumeration evaluates inside the kernel. -/
def insertions (x : α) : List α → List (List α)
  | [] => [[x]]
  | y :: ys => (x :: y :: ys) :: (insertions x ys).map (y :: ·)

/-- All permutations of a list, by structural recursion. -/
def perms : List α → List (List α)
  | [] => [[]]
  | x :: xs => (perms xs).flatMap (insertions x)

/-- Modelled from the spec words of claim C7 only, for comparison with the
source renderer `toLedgerText`: a rendering in which eight literal spaces
precede each account name and eight literal spaces separate the account name
from the amount. -/
def ledgerTextSpecC7 (t : Transaction) : Str :=
  t.date ++ " * \"".data ++ t.payee ++ "\" \"".data ++ t.narration ++
    "\"\n        ".data ++ t.from_account ++ "        -".data ++
    fmt2 t.amount ++ " ".data ++ t.currency ++ "\n        ".data ++
    t.to_account ++ "        ".data ++ fmt2 t.amount ++ " ".data ++
    t.currency ++ "\n".data

/-- Well-formedness of a capture set produced by the matcher: the mandatory
groups are present, the amount token parses, a captured currency is three
uppercase letters and a captured date starts with a digit. -/
structure CapsWF (caps : Caps) : Prop where
  payee_some : ∃ p, caps.payee = some p
  amount_parses : ∃ a q, caps.amount = some a ∧ parseDecimal? a = some q
  from_some : ∃ f, caps.fromCap = some f
  to_some : ∃ b, caps.toCap = some b
  currency_wf : ∀ c, caps.currency = some c →
    ∃ x y z, c = [x, y, z] ∧ x.isUpper ∧ y.isUpper ∧ z.isUpper
  date_wf : ∀ d, caps.date = some d → ∃ x r, d = x :: r ∧ x.isDigit

/-- Well-formedness of the tail captures: the amount token parses and a
captured currency is three uppercase letters. -/
def TailWF (tl : TailCaps) : Prop :=
  (∃ q, parseDecimal? tl.amount = some q) ∧
  (∀ cur, tl.currency = some cur →
    ∃ x y z, cur = [x, y, z] ∧ x.isUpper ∧ y.isUpper ∧ z.isUpper)

/-! Helper lemmas about the token takers. -/

theorem not_mem_append_of {α : Type} {a : α} {xs ys : List α}
    (h1 : a ∉ xs) (h2 : a ∉ ys) : a ∉ xs ++ ys := by
  simp only [List.mem_append]
  rintro (h | h)
  · exact h1 h
  · exact h2 h

theorem takeWhile1_some {p : Char → Bool} {cs w r : Str}
    (h : takeWhile1 p cs = some (w, r)) :
    w ≠ [] ∧ w = cs.takeWhile p ∧ r = cs.dropWhile p := by
  unfold takeWhile1 at h
  split at h
  · exact absurd h (by simp)
  · rename_i hne
    simp only [Option.some.injEq, Prod.mk.injEq] at h
    refine ⟨?_, h.1.symm, h.2.symm⟩
    rw [← h.1]
    exact hne

theorem takeWhile1_all {p : Char → Bool} {cs w r : Str}
    (h : takeWhile1 p cs = some (w, r)) : ∀ c ∈ w, p c := by
  obtain ⟨-, hw, -⟩ := takeWhile1_some h
  intro c hc
  rw [hw] at hc
  exact List.mem_takeWhile_imp hc

theorem takeDate_some {cs d r : Str} (h : takeDate cs = some (d, r)) :
    ∃ x rest, d = x :: rest ∧ x.isDigit := by
  unfold takeDate at h
  split at h
  · split at h
    · rename_i a b c d' e f g h' i j rest hcond
      simp only [Option.some.injEq, Prod.mk.injEq] at h
      simp only [Bool.and_eq_true] at hcond
      exact ⟨a, [b, c, d', e, f, g, h', i, j], h.1.symm, hcond.1.1.1.1.1.1.1.1.1⟩
    · exact absurd h (by simp)
  · exact absurd h (by simp)

theorem takeWhile_append_all {p : Char → Bool} {xs : Str} (y : Char) (ys : Str)
    (hall : ∀ c ∈ xs, p c) (hy : p y = false) :
    (xs ++ y :: ys).takeWhile p = xs ∧ (xs ++ y :: ys).dropWhile p = y :: ys := by
  induction xs with
  | nil => simp [List.takeWhile_cons, List.dropWhile_cons, hy]
  | cons x xs ih =>
    have hx : p x = true := hall x (List.mem_cons_self x xs)
    obtain ⟨ht, hd⟩ := ih (fun c hc => hall c (List.mem_cons_of_mem _ hc))
    simp [List.takeWhile_cons, List.dropWhile_cons, hx, ht, hd]

theorem parseDecimal?_shape {w1 w2 : Str} (h1 : w1 ≠ []) (hd1 : ∀ c ∈ w1, c.isDigit)
    (h2 : w2 ≠ []) (hd2 : ∀ c ∈ w2, c.isDigit) :
    ∃ q, parseDecimal? (w1 ++ '.' :: w2) = some q := by
  have hdot : ('.' : Char).isDigit = false := by decide
  obtain ⟨ht, hd⟩ := takeWhile_append_all '.' w2 hd1 hdot
  refine ⟨⟨digitsToNat w1, digitsToNat (stripZeros w2), (stripZeros w2).length⟩, ?_⟩
  unfold parseDecimal?
  simp only [ht, hd]
  rw [if_neg h1]
  have hall : w2.all Char.isDigit = true := by
    rw [List.all_eq_true]
    exact fun c hc => hd2 c hc
  simp [hall, h2]

theorem takeAmount_some {cs amt r : Str} (h : takeAmount cs = some (amt, r)) :
    ∃ q, parseDecimal? amt = some q := by
  unfold takeAmount at h
  cases h1 : takeWhile1 Char.isDigit cs with
  | none => rw [h1] at h; exact absurd h (by simp)
  | some wr =>
    obtain ⟨w1, r1⟩ := wr
    rw [h1] at h
    simp only at h
    split at h
    · rename_i r2
      cases h2 : takeWhile1 Char.isDigit r2 with
      | none => rw [h2] at h; exact absurd h (by simp)
      | some wr2 =>
        obtain ⟨w2, r3⟩ := wr2
        rw [h2] at h
        simp only [Option.some.injEq, Prod.mk.injEq] at h
        obtain ⟨hamt, -⟩ := h
        obtain ⟨hne1, -, -⟩ := takeWhile1_some h1
        obtain ⟨hne2, -, -⟩ := takeWhile1_some h2
        obtain ⟨q, hq⟩ := parseDecimal?_shape hne1 (takeWhile1_all h1) hne2 (takeWhile1_all h2)
        exact ⟨q, hamt ▸ hq⟩
    · exact absurd h (by simp)

/-! The theory of `rustSplit`, backing the claims about `year` and the
line structure of the rendering. -/

theorem rustSplit_ne_nil (sep : Char) (cs : Str) : rustSplit sep cs ≠ [] := by
  induction cs with
  | nil => simp [rustSplit]
  | cons c cs ih =>
    simp only [rustSplit]
    split
    · simp
    · cases h : rustSplit sep cs with
      | nil => exact absurd h ih
      | cons w ws => simp

theorem rustSplit_head? (sep : Char) (cs : Str) :
    (rustSplit sep cs).head? = some (cs.takeWhile (fun c => c != sep)) := by
  induction cs with
  | nil => simp [rustSplit]
  | cons c cs ih =>
    by_cases hc : c = sep
    · subst hc
      simp [rustSplit, List.takeWhile_cons]
    · rw [List.takeWhile_cons]
      have hbne : (c != sep) = true := bne_iff_ne.mpr hc
      cases h : rustSplit sep cs with
      | nil => exact absurd h (rustSplit_ne_nil sep cs)
      | cons w ws =>
        rw [h] at ih
        simp only [List.head?_cons, Option.some.injEq] at ih
        simp [rustSplit, hc, h, hbne, ih]

theorem takeWhile_ne_of_not_mem {sep : Char} {cs : Str} (h : sep ∉ cs) :
    cs.takeWhile (fun c => c != sep) = cs := by
  induction cs with
  | nil => simp
  | cons c cs ih =>
    have hc : c ≠ sep := fun e => h (e ▸ List.mem_cons_self c cs)
    rw [List.takeWhile_cons]
    simp [bne_iff_ne.mpr hc, ih (fun m => h (List.mem_cons_of_mem _ m))]

theorem rustSplit_append_sepFree (sep : Char) (xs ys : Str) (h : sep ∉ xs) :
    rustSplit sep (xs ++ sep :: ys) = xs :: rustSplit sep ys := by
  induction xs with
  | nil => simp [rustSplit]
  | cons c cs ih =>
    have hc : ¬c = sep := fun e => h (e ▸ List.mem_cons_self c cs)
    have h' : sep ∉ cs := fun m => h (List.mem_cons_of_mem _ m)
    rw [List.cons_append]
    simp only [rustSplit, if_neg hc, ih h']

theorem rustSplit_triple (sep : Char) (L1 L2 L3 : Str)
    (m1 : sep ∉ L1) (m2 : sep ∉ L2) (m3 : sep ∉ L3) :
    rustSplit sep (L1 ++ sep :: (L2 ++ sep :: (L3 ++ [sep]))) = [L1, L2, L3, []] := by
  rw [rustSplit_append_sepFree sep L1 _ m1, rustSplit_append_sepFree sep L2 _ m2]
  have h3 : L3 ++ [sep] = L3 ++ sep :: [] := rfl
  rw [h3, rustSplit_append_sepFree sep L3 [] m3]
  rfl

/-! Claim C9: totality of `Transaction::year`. -/

/-- C9: `year` is total for every transaction: the `split('-').next()` of the
source always yields a value, namely the prefix of `date` up to but excluding
the first `'-'`; it is the whole date string when no `'-'` occurs, and the
first four characters for a well-formed ISO `YYYY-MM-DD` date. -/
theorem C9_year_total (t : Transaction) :
    yearSplit t = some (t.date.takeWhile (fun c => c != '-')) ∧
    year t = t.date.takeWhile (fun c => c != '-') ∧
    ('-' ∉ t.date → year t = t.date) ∧
    (∀ a b c d rest, t.date = a :: b :: c :: d :: '-' :: rest →
      a ≠ '-' → b ≠ '-' → c ≠ '-' → d ≠ '-' → year t = [a, b, c, d]) := by
  have h1 : yearSplit t = some (t.date.takeWhile (fun c => c != '-')) :=
    rustSplit_head? '-' t.date
  have h2 : year t = t.date.takeWhile (fun c => c != '-') := by
    unfold year
    rw [h1]
  refine ⟨h1, h2, ?_, ?_⟩
  · intro hmem
    rw [h2, takeWhile_ne_of_not_mem hmem]
  · intro a b c d rest hdate ha hb hc hd
    rw [h2, hdate]
    simp [List.takeWhile_cons, bne_iff_ne.mpr ha, bne_iff_ne.mpr hb,
      bne_iff_ne.mpr hc, bne_iff_ne.mpr hd]

/-- Witness for C9 at the example transaction. -/
theorem C9_year_total_witness :
    year txExample = "2021".data ∧ yearSplit txExample = some "2021".data := by
  refine ⟨?_, ?_⟩
  · exact (C9_year_total txExample).2.2.2 '2' '0' '2' '1' "09-08".data rfl
      (by decide) (by decide) (by decide) (by decide)
  · exact (C9_year_total txExample).1

/-! Claim C2: the store append is additive. -/

/-- C2: when the initial GET finds the ledger with decoded content `C` and the
PUT is accepted, `save` writes back exactly `C` then one newline then the
rendered transaction, so `C` is a strict prefix of the stored content. -/
theorem C2_store_append_additive (C sha : Str) (cs : Nat) (sg : GetResp)
    (put : Nat) (t : Transaction) (h : put = 200 ∨ put = 201) :
    save ⟨.ok C sha, cs, sg, put⟩ t =
      (some (C ++ "\n".data ++ toLedgerText t), .ok (toLedgerText t)) ∧
    C <+: C ++ "\n".data ++ toLedgerText t ∧
    C ≠ C ++ "\n".data ++ toLedgerText t := by
  refine ⟨?_, ?_, ?_⟩
  · rcases h with rfl | rfl <;> simp [save]
  · rw [List.append_assoc]
    exact List.prefix_append C _
  · intro heq
    have hl := congrArg List.length heq
    rw [List.append_assoc, List.length_append] at hl
    have : ("\n".data ++ toLedgerText t).length = 0 := by omega
    rw [List.length_eq_zero] at this
    exact absurd this (by simp)

/-- Witness for C2 with a concrete script, content and transaction. -/
theorem C2_store_append_additive_witness :
    save ⟨.ok "old".data "sha".data, 0, .notFound, 200⟩ txExample =
      (some ("old".data ++ "\n".data ++ toLedgerText txExample),
       .ok (toLedgerText txExample)) ∧
    "old".data <+: "old".data ++ "\n".data ++ toLedgerText txExample ∧
    "old".data ≠ "old".data ++ "\n".data ++ toLedgerText txExample :=
  C2_store_append_additive "old".data "sha".data 0 .notFound 200 txExample
    (Or.inl rfl)

/-! Claim C4: distinguishability of the stale-version write failure. -/

/-- C4 counterexample: a stale-version PUT rejection (status 409) and an
unrelated write failure (status 500) produce the very same error value
`Failed to save transaction!`, so no `ConcurrentModification` error value
distinguishable from other write failures exists. -/
theorem C4_counterexample :
    (save ⟨.ok "old".data "sha".data, 0, .notFound, 409⟩ txExample).2 =
      .error "Failed to save transaction!".data ∧
    (save ⟨.ok "old".data "sha".data, 0, .notFound, 500⟩ txExample).2 =
      .error "Failed to save transaction!".data ∧
    (save ⟨.ok "old".data "sha".data, 0, .notFound, 409⟩ txExample).2 =
      (save ⟨.ok "old".data "sha".data, 0, .notFound, 500⟩ txExample).2 := by
  refine ⟨?_, ?_, ?_⟩ <;> rfl

/-- C4 amended: every non-success PUT status, the stale-version rejection
included, makes `save` return the one generic error value
`Failed to save transaction!`; the save result does not distinguish the
stale-version case from any other write failure. -/
theorem C4_write_failures_collapse (C sha : Str) (cs : Nat) (sg : GetResp)
    (put : Nat) (t : Transaction) (h : ¬(put = 200 ∨ put = 201)) :
    (save ⟨.ok C sha, cs, sg, put⟩ t).2 =
      .error "Failed to save transaction!".data := by
  simp [save, h]

/-- Witness for the amended C4 at the stale-version status 409. -/
theorem C4_write_failures_collapse_witness :
    (save ⟨.ok "old".data "sha".data, 7, .notFound, 409⟩ txExample).2 =
      .error "Failed to save transaction!".data :=
  C4_write_failures_collapse "old".data "sha".data 7 .notFound 409 txExample
    (by decide)

/-! Claim C8: creation of the yearly file on first use. -/

/-- C8: when the first GET reports not-found and the CREATE of the empty blob
succeeds, `save` re-fetches and appends against the empty content, writing
exactly one newline followed by the rendered transaction; when the CREATE
fails, the whole call fails with the create error and no PUT is issued. -/
theorem C8_create_then_append (sha : Str) (cs put cs2 : Nat) (sg : GetResp)
    (t : Transaction) (hc : cs = 201 ∨ cs = 200) (hp : put = 200 ∨ put = 201)
    (hc2 : ¬(cs2 = 201 ∨ cs2 = 200)) :
    save ⟨.notFound, cs, .ok [] sha, put⟩ t =
      (some ("\n".data ++ toLedgerText t), .ok (toLedgerText t)) ∧
    save ⟨.notFound, cs2, sg, put⟩ t =
      (none, .error ("Failed to create new file ".data ++ (year t ++ ".bean".data))) := by
  constructor
  · rcases hc with rfl | rfl <;> rcases hp with rfl | rfl <;>
      simp [save, create_file]
  · simp [save, create_file, hc2]

/-- Witness for C8 with concrete statuses. -/
theorem C8_create_then_append_witness :
    save ⟨.notFound, 201, .ok [] "sha".data, 200⟩ txExample =
      (some ("\n".data ++ toLedgerText txExample), .ok (toLedgerText txExample)) ∧
    save ⟨.notFound, 500, .ok [] "sha".data, 200⟩ txExample =
      (none, .error ("Failed to create new file ".data ++
        (year txExample ++ ".bean".data))) :=
  ⟨(C8_create_then_append "sha".data 201 200 500 (.ok [] "sha".data) txExample
      (Or.inl rfl) (Or.inl rfl) (by decide)).1,
   (C8_create_then_append "sha".data 201 200 500 (.ok [] "sha".data) txExample
      (Or.inl rfl) (Or.inl rfl) (by decide)).2⟩

/-! Claim C7: the exact spacing of the ledger rendering. -/

/-- C7 counterexample: the source renderer puts two spaces, not eight, before
each account name; at the example transaction the actual rendering differs
from the eight-space rendering claimed by the spec. -/
theorem C7_counterexample :
    toLedgerText txExample =
      ("2021-09-08 * \"KFC\" \"hamburger\"\n  Assets:MasterCard:CBA        -12.40 AUD\n  Expense:Food        12.40 AUD\n").data ∧
    toLedgerText txExample ≠ ledgerTextSpecC7 txExample := by
  constructor <;> decide

/-- C7 amended: the rendering is the header line followed by two posting
lines in which exactly two literal spaces precede each account name and
exactly eight literal spaces separate the account name from the amount, the
first posting carrying the negated amount to two decimals with the currency,
the second the positive amount; splitting on newlines recovers exactly these
three lines plus the empty trailing segment. -/
theorem C7_ledger_layout (t : Transaction)
    (h1 : '\n' ∉ t.date) (h2 : '\n' ∉ t.payee) (h3 : '\n' ∉ t.narration)
    (h4 : '\n' ∉ t.from_account) (h5 : '\n' ∉ t.to_account)
    (h6 : '\n' ∉ t.currency) (h7 : '\n' ∉ fmt2 t.amount) :
    rustSplit '\n' (toLedgerText t) =
      [t.date ++ " * \"".data ++ t.payee ++ "\" \"".data ++ t.narration ++ "\"".data,
       "  ".data ++ t.from_account ++ "        -".data ++ fmt2 t.amount ++
         " ".data ++ t.currency,
       "  ".data ++ t.to_account ++ "        ".data ++ fmt2 t.amount ++
         " ".data ++ t.currency,
       []] := by
  have m1 : '\n' ∉ t.date ++ " * \"".data ++ t.payee ++ "\" \"".data ++
      t.narration ++ "\"".data :=
    not_mem_append_of (not_mem_append_of (not_mem_append_of (not_mem_append_of
      (not_mem_append_of h1 (by decide)) h2) (by decide)) h3) (by decide)
  have m2 : '\n' ∉ "  ".data ++ t.from_account ++ "        -".data ++
      fmt2 t.amount ++ " ".data ++ t.currency :=
    not_mem_append_of (not_mem_append_of (not_mem_append_of (not_mem_append_of
      (not_mem_append_of (by decide) h4) (by decide)) h7) (by decide)) h6
  have m3 : '\n' ∉ "  ".data ++ t.to_account ++ "        ".data ++
      fmt2 t.amount ++ " ".data ++ t.currency :=
    not_mem_append_of (not_mem_append_of (not_mem_append_of (not_mem_append_of
      (not_mem_append_of (by decide) h5) (by decide)) h7) (by decide)) h6
  have e : toLedgerText t =
      (t.date ++ " * \"".data ++ t.payee ++ "\" \"".data ++ t.narration ++ "\"".data) ++
        '\n' :: (("  ".data ++ t.from_account ++ "        -".data ++ fmt2 t.amount ++
          " ".data ++ t.currency) ++
          '\n' :: (("  ".data ++ t.to_account ++ "        ".data ++ fmt2 t.amount ++
            " ".data ++ t.currency) ++ ['\n'])) := by
    have d1 : ("\"\n  ".data : Str) = "\"".data ++ '\n' :: "  ".data := rfl
    have d2 : ("\n  ".data : Str) = '\n' :: "  ".data := rfl
    have d3 : ("\n".data : Str) = ['\n'] := rfl
    unfold toLedgerText
    rw [d1, d2, d3]
    simp [List.append_assoc, List.cons_append]
  rw [e]
  exact rustSplit_triple '\n' _ _ _ m1 m2 m3

/-- Witness for the amended C7 at the example transaction. -/
theorem C7_ledger_layout_witness :
    rustSplit '\n' (toLedgerText txExample) =
      ["2021-09-08 * \"KFC\" \"hamburger\"".data,
       "  Assets:MasterCard:CBA        -12.40 AUD".data,
       "  Expense:Food        12.40 AUD".data,
       []] := by
  have h := C7_ledger_layout txExample (by decide) (by decide) (by decide)
    (by decide) (by decide) (by decide) (by decide)
  rw [h]
  decide

/-! Completeness of the structural permutation enumerator. -/

theorem mem_insertions {α : Type} (x : α) : ∀ (s t : List α),
    s ++ x :: t ∈ insertions x (s ++ t)
  | [], t => by
    cases t with
    | nil => simp [insertions]
    | cons y ys => simp [insertions]
  | y :: s, t => by
    have ih := mem_insertions x s t
    simp only [List.cons_append, insertions, List.mem_cons, List.mem_map]
    exact Or.inr ⟨s ++ x :: t, ih, rfl⟩

theorem perms_complete {α : Type} {l p : List α} (h : p.Perm l) : p ∈ perms l := by
  induction l generalizing p with
  | nil => simp [perms, h.eq_nil]
  | cons x xs ih =>
    have hx : x ∈ p := h.symm.subset (List.mem_cons_self x xs)
    obtain ⟨s, t, rfl⟩ := List.append_of_mem hx
    have h2 : (s ++ t).Perm xs :=
      (List.perm_middle.symm.trans h).cons_inv
    have h3 : s ++ t ∈ perms xs := ih h2
    simp only [perms, List.mem_flatMap]
    exact ⟨s ++ t, h3, mem_insertions x s t⟩

/-! Claim C1: order independence of the field groups. -/

/-- C1 counterexample: the example input parses in the canonical field order,
but the permutation that moves the date between the narration and the amount
is rejected, so permuting the field groups does not preserve the parse
result. -/
theorem C1_counterexample :
    parse settings0 today0
      (joinSp [grpDate, grpPayee, grpAmount, grpAccounts]) = .ok txExample ∧
    parse settings0 today0
      (joinSp [grpPayee, grpDate, grpAmount, grpAccounts]) =
      .error invalidFormatMsg := by
  exact ⟨rfl, rfl⟩

/-- C1 amended: field order is not irrelevant.  For the example field set,
among all permutations of the four groups date, payee-plus-narration,
amount-plus-currency and account pair, only the canonical order
date payee narration amount currency from-to parses to the transaction with
the explicit date; the single permutation that moves the date group behind
the account pair still parses but silently drops the date token in favour of
the processing-date default, and every other permutation is rejected. -/
theorem C1_field_order_dependent (p : List Str)
    (h : p.Perm [grpDate, grpPayee, grpAmount, grpAccounts]) :
    permCheck p = true := by
  have hall : ∀ q ∈ perms [grpDate, grpPayee, grpAmount, grpAccounts],
      permCheck q = true := by decide
  exact hall p (perms_complete h)

/-- Witness for the amended C1 at the canonical order and at the order with
the date group moved behind the account pair. -/
theorem C1_field_order_dependent_witness :
    permCheck [grpDate, grpPayee, grpAmount, grpAccounts] = true ∧
    permCheck [grpPayee, grpAmount, grpAccounts, grpDate] = true :=
  ⟨C1_field_order_dependent _ (List.Perm.refl _),
   C1_field_order_dependent [grpPayee, grpAmount, grpAccounts, grpDate]
     (@List.perm_append_comm Str [grpPayee, grpAmount, grpAccounts]
       [grpDate])⟩

/-! Characterization of successful parses. -/

theorem parse_eq_of_captures {s : Settings} {today input : Str} {caps : Caps}
    (h : capturesOf input = some caps) :
    parse s today input = parse_caps s today caps := by
  simp [parse, h]

theorem parse_caps_ok_iff (s : Settings) (today : Str) (caps : Caps)
    (t : Transaction) :
    parse_caps s today caps = .ok t ↔
      ∃ p a q f vf b vb,
        caps.payee = some p ∧ caps.amount = some a ∧ parseDecimal? a = some q ∧
        caps.fromCap = some f ∧ s.accounts.lookup f = some vf ∧
        caps.toCap = some b ∧ s.accounts.lookup b = some vb ∧
        t = ⟨caps.date.getD today, p, caps.narration.getD [], q,
             caps.currency.getD "AUD".data, vf, vb⟩ := by
  constructor
  · intro h
    unfold parse_caps parse_account at h
    cases hp : caps.payee with
    | none => simp only [hp] at h; exact Except.noConfusion h
    | some p =>
      simp only [hp] at h
      cases ha : caps.amount with
      | none => simp only [ha] at h; exact Except.noConfusion h
      | some a =>
        simp only [ha] at h
        cases hq : parseDecimal? a with
        | none => simp only [hq] at h; exact Except.noConfusion h
        | some q =>
          simp only [hq] at h
          cases hf : caps.fromCap with
          | none => simp only [hf] at h; exact Except.noConfusion h
          | some f =>
            simp only [hf] at h
            cases hvf : s.accounts.lookup f with
            | none => simp only [hvf] at h; exact Except.noConfusion h
            | some vf =>
              simp only [hvf] at h
              cases hb : caps.toCap with
              | none => simp only [hb] at h; exact Except.noConfusion h
              | some b =>
                simp only [hb] at h
                cases hvb : s.accounts.lookup b with
                | none => simp only [hvb] at h; exact Except.noConfusion h
                | some vb =>
                  simp only [hvb, Except.ok.injEq] at h
                  exact ⟨p, a, q, f, vf, b, vb, rfl, rfl, hq, rfl, hvf, rfl,
                    hvb, h.symm⟩
  · rintro ⟨p, a, q, f, vf, b, vb, hp, ha, hq, hf, hvf, hb, hvb, rfl⟩
    simp [parse_caps, parse_account, hp, ha, hq, hf, hvf, hb, hvb]

/-! Claim C3: the default currency. -/

/-- C3 counterexample: with a configured default currency of USD, an input
with no currency token parses to a transaction whose currency is the literal
AUD, not the configured default. -/
theorem C3_counterexample :
    parse settingsUSD today0 "@KFL 22.34 cba > food".data =
      .ok ⟨today0, "KFL".data, [], ⟨22, 34, 2⟩, "AUD".data,
           "Assets:MasterCard:CBA".data, "Expense:Food".data⟩ ∧
    settingsUSD.currency = "USD".data ∧
    (⟨today0, "KFL".data, [], ⟨22, 34, 2⟩, "AUD".data,
      "Assets:MasterCard:CBA".data, "Expense:Food".data⟩ : Transaction).currency
      ≠ settingsUSD.currency := by
  refine ⟨rfl, rfl, by decide⟩

/-- C3 amended: when an input parses successfully and the match captured no
currency token, the currency of the resulting transaction is the hardcoded
literal AUD, whatever default currency the settings configure. -/
theorem C3_currency_default_hardcoded (s : Settings) (today input : Str)
    (caps : Caps) (t : Transaction) (hcap : capturesOf input = some caps)
    (hcur : caps.currency = none) (hok : parse s today input = .ok t) :
    t.currency = "AUD".data := by
  rw [parse_eq_of_captures hcap, parse_caps_ok_iff] at hok
  obtain ⟨p, a, q, f, vf, b, vb, -, -, -, -, -, -, -, rfl⟩ := hok
  simp [hcur]

/-- Witness for the amended C3 at a concrete input and USD settings. -/
theorem C3_currency_default_hardcoded_witness :
    (⟨today0, "KFL".data, [], ⟨22, 34, 2⟩, "AUD".data,
      "Assets:MasterCard:CBA".data, "Expense:Food".data⟩ : Transaction).currency
      = "AUD".data :=
  C3_currency_default_hardcoded settingsUSD today0 "@KFL 22.34 cba > food".data
    ⟨none, some "KFL".data, none, some "22.34".data, none,
     some "cba".data, some "food".data⟩ _ rfl rfl rfl

/-! Claim C6: which fields are mandatory. -/

/-- C6 counterexample: an input with a valid amount token and a valid account
pair but no payee token does not parse to a transaction with an empty payee;
it is rejected with the generic invalid-format error. -/
theorem C6_counterexample :
    parse settings0 today0 "12.40 cba > food".data = .error invalidFormatMsg :=
  rfl

/-- C6 amended: among date, payee, narration and currency, only date,
narration and currency are optional with defaults; the payee is mandatory
like the amount: an input with a valid amount and account pair but no payee
is rejected, as is an input with a payee and account pair but no amount, both
with the generic invalid-format error rather than a dedicated missing-field
error. -/
theorem C6_amount_and_payee_mandatory (s : Settings) (today va vb : Str)
    (hcba : s.accounts.lookup "cba".data = some va)
    (hfood : s.accounts.lookup "food".data = some vb) :
    parse s today "@KFL 22.34 cba > food".data =
      .ok ⟨today, "KFL".data, [], ⟨22, 34, 2⟩, "AUD".data, va, vb⟩ ∧
    parse s today "12.40 cba > food".data = .error invalidFormatMsg ∧
    parse s today "@KFL cba > food".data = .error invalidFormatMsg := by
  refine ⟨?_, ?_, ?_⟩
  · have hc : capturesOf "@KFL 22.34 cba > food".data =
        some ⟨none, some "KFL".data, none, some "22.34".data, none,
              some "cba".data, some "food".data⟩ := rfl
    rw [parse_eq_of_captures hc, parse_caps_ok_iff]
    exact ⟨"KFL".data, "22.34".data, ⟨22, 34, 2⟩, "cba".data, va,
      "food".data, vb, rfl, rfl, rfl, rfl, hcba, rfl, hfood, rfl⟩
  · have hc2 : capturesOf "12.40 cba > food".data = none := rfl
    simp [parse, hc2]
  · have hc3 : capturesOf "@KFL cba > food".data = none := rfl
    simp [parse, hc3]

/-- Witness for the amended C6 at the repository settings. -/
theorem C6_amount_and_payee_mandatory_witness :
    parse settings0 today0 "@KFL 22.34 cba > food".data =
      .ok ⟨today0, "KFL".data, [], ⟨22, 34, 2⟩, "AUD".data,
           "Assets:MasterCard:CBA".data, "Expense:Food".data⟩ ∧
    parse settings0 today0 "12.40 cba > food".data = .error invalidFormatMsg ∧
    parse settings0 today0 "@KFL cba > food".data = .error invalidFormatMsg :=
  C6_amount_and_payee_mandatory settings0 today0 _ _ rfl rfl

/-! Well-formedness of every capture set the matcher can produce. -/

theorem currencyBranch_wf {r1 cur f t : Str}
    (h : currencyBranch r1 = some (cur, f, t)) :
    ∃ x y z, cur = [x, y, z] ∧ x.isUpper ∧ y.isUpper ∧ z.isUpper := by
  unfold currencyBranch at h
  cases h1 : takeWhile1 isWs r1 with
  | none => simp only [h1] at h; exact Option.noConfusion h
  | some wr =>
    obtain ⟨w, r2⟩ := wr
    simp only [h1] at h
    rcases r2 with _ | ⟨c1, _ | ⟨c2, _ | ⟨c3, r3⟩⟩⟩ <;> simp only [] at h
    · exact Option.noConfusion h
    · exact Option.noConfusion h
    · exact Option.noConfusion h
    split at h
    · rename_i hcond
      cases h2 : takeWhile1 isWs r3 with
      | none => simp only [h2] at h; exact Option.noConfusion h
      | some wr2 =>
        obtain ⟨w2, r4⟩ := wr2
        simp only [h2] at h
        cases h3 : matchFromTo r4 with
        | none => simp only [h3] at h; exact Option.noConfusion h
        | some ft =>
          obtain ⟨f2, t2⟩ := ft
          simp only [h3, Option.some.injEq, Prod.mk.injEq] at h
          simp only [Bool.and_eq_true] at hcond
          exact ⟨c1, c2, c3, h.1.symm, hcond.1.1, hcond.1.2, hcond.2⟩
    · exact Option.noConfusion h

theorem matchTail_wf {cs : Str} {tl : TailCaps} (h : matchTail cs = some tl) :
    TailWF tl := by
  unfold matchTail at h
  cases h1 : takeAmount cs with
  | none => simp only [h1] at h; exact Option.noConfusion h
  | some ar =>
    obtain ⟨amt, r1⟩ := ar
    simp only [h1] at h
    obtain ⟨q, hq⟩ := takeAmount_some h1
    cases h2 : currencyBranch r1 with
    | some cft =>
      obtain ⟨cur, f, t⟩ := cft
      simp only [h2, Option.some.injEq] at h
      subst h
      refine ⟨⟨q, hq⟩, fun cur2 hc => ?_⟩
      obtain rfl : cur = cur2 := Option.some.inj hc
      exact currencyBranch_wf h2
    | none =>
      simp only [h2] at h
      cases h3 : takeWhile1 isWs r1 with
      | none => simp only [h3] at h; exact Option.noConfusion h
      | some wr =>
        obtain ⟨w, r2⟩ := wr
        simp only [h3] at h
        cases h4 : matchFromTo r2 with
        | none => simp only [h4] at h; exact Option.noConfusion h
        | some ft =>
          obtain ⟨f, t⟩ := ft
          simp only [h4, Option.some.injEq] at h
          subst h
          exact ⟨⟨q, hq⟩, fun cur2 hc => Option.noConfusion hc⟩

theorem narrBranch_wf {payee r2 : Str} {c : CoreCaps}
    (h : narrBranch payee r2 = some c) : TailWF c.tail := by
  unfold narrBranch at h
  cases h1 : takeWhile1 isWordChar r2 with
  | none => simp only [h1] at h; exact Option.noConfusion h
  | some nr =>
    obtain ⟨narr, r3⟩ := nr
    simp only [h1] at h
    cases h2 : takeWhile1 isWs r3 with
    | none => simp only [h2] at h; exact Option.noConfusion h
    | some wr =>
      obtain ⟨w, r4⟩ := wr
      simp only [h2] at h
      cases h3 : matchTail r4 with
      | none => simp only [h3] at h; exact Option.noConfusion h
      | some tl2 =>
        simp only [h3, Option.some.injEq] at h
        subst h
        exact matchTail_wf h3

theorem matchCore_wf {cs : Str} {c : CoreCaps} (h : matchCore cs = some c) :
    TailWF c.tail := by
  unfold matchCore at h
  split at h
  · rename_i r0
    cases h1 : takeWhile1 isWordChar r0 with
    | none => simp only [h1] at h; exact Option.noConfusion h
    | some pr =>
      obtain ⟨payee, r1⟩ := pr
      simp only [h1] at h
      cases h2 : takeWhile1 isWs r1 with
      | none => simp only [h2] at h; exact Option.noConfusion h
      | some wr =>
        obtain ⟨w, r2⟩ := wr
        simp only [h2] at h
        cases h3 : narrBranch payee r2 with
        | some c2 =>
          simp only [h3, Option.some.injEq] at h
          subst h
          exact narrBranch_wf h3
        | none =>
          simp only [h3] at h
          cases h4 : matchTail r2 with
          | none => simp only [h4] at h; exact Option.noConfusion h
          | some tl =>
            simp only [h4, Option.some.injEq] at h
            subst h
            exact matchTail_wf h4
  · exact Option.noConfusion h

theorem capsWF_of_core {d : Option Str} {c : CoreCaps}
    (hdate : ∀ dd, d = some dd → ∃ x r, dd = x :: r ∧ x.isDigit)
    (htail : TailWF c.tail) : CapsWF (assemble d c) := by
  obtain ⟨⟨q, hq⟩, hcur⟩ := htail
  exact ⟨⟨c.payee, rfl⟩, ⟨c.tail.amount, q, rfl, hq⟩, ⟨c.tail.fromCap, rfl⟩,
    ⟨c.tail.toCap, rfl⟩, hcur, hdate⟩

theorem matchAt_wf {cs : Str} {caps : Caps} (h : matchAt cs = some caps) :
    CapsWF caps := by
  unfold matchAt at h
  cases hd : dateBranch cs with
  | some c2 =>
    simp only [hd, Option.some.injEq] at h
    subst h
    unfold dateBranch at hd
    cases h1 : takeDate cs with
    | none => simp only [h1] at hd; exact Option.noConfusion hd
    | some dr =>
      obtain ⟨d, r1⟩ := dr
      simp only [h1] at hd
      cases h2 : takeWhile1 isWs r1 with
      | none => simp only [h2] at hd; exact Option.noConfusion hd
      | some wr =>
        obtain ⟨w, r2⟩ := wr
        simp only [h2] at hd
        cases h3 : matchCore r2 with
        | none => simp only [h3] at hd; exact Option.noConfusion hd
        | some c =>
          simp only [h3, Option.map_some', Option.some.injEq] at hd
          subst hd
          refine capsWF_of_core (fun dd hdd => ?_) (matchCore_wf h3)
          obtain rfl : d = dd := Option.some.inj hdd
          exact takeDate_some h1
  | none =>
    simp only [hd] at h
    cases h3 : matchCore cs with
    | none => simp only [h3] at h; exact Option.noConfusion h
    | some c =>
      simp only [h3, Option.map_some', Option.some.injEq] at h
      subst h
      exact capsWF_of_core (fun dd hdd => Option.noConfusion hdd)
        (matchCore_wf h3)

theorem capturesOf_wf {input : Str} {caps : Caps}
    (h : capturesOf input = some caps) : CapsWF caps := by
  induction input with
  | nil => exact matchAt_wf h
  | cons c cs ih =>
    unfold capturesOf at h
    cases hm : matchAt (c :: cs) with
    | some caps2 =>
      simp only [hm, Option.some.injEq] at h
      subst h
      exact matchAt_wf hm
    | none =>
      simp only [hm] at h
      exact ih h

/-! Claim C5: totality of alias resolution. -/

/-- C5: for an otherwise-valid input (one the regex matches) whose account
captures are the aliases `a` and `b`, the parse resolves each side of the
arrow to exactly the canonical path mapped in `settings.accounts`; when the
from-side alias is unmapped the parse fails with the unknown-account error
naming it, and likewise for the to-side alias when the from-side resolves;
an unmapped alias never yields a successful transaction. -/
theorem C5_alias_resolution (s : Settings) (today input : Str) (caps : Caps)
    (a b : Str) (hcap : capturesOf input = some caps)
    (ha : caps.fromCap = some a) (hb : caps.toCap = some b) :
    (∀ va vb, s.accounts.lookup a = some va → s.accounts.lookup b = some vb →
      ∃ t, parse s today input = .ok t ∧ t.from_account = va ∧
        t.to_account = vb) ∧
    (s.accounts.lookup a = none →
      parse s today input = .error (unknownAccountMsg a)) ∧
    (∀ va, s.accounts.lookup a = some va → s.accounts.lookup b = none →
      parse s today input = .error (unknownAccountMsg b)) := by
  have wf := capturesOf_wf hcap
  obtain ⟨p, hp⟩ := wf.payee_some
  obtain ⟨amt, q, hamt, hq⟩ := wf.amount_parses
  rw [parse_eq_of_captures hcap]
  refine ⟨?_, ?_, ?_⟩
  · intro va vb hva hvb
    refine ⟨⟨caps.date.getD today, p, caps.narration.getD [], q,
      caps.currency.getD "AUD".data, va, vb⟩, ?_, rfl, rfl⟩
    rw [parse_caps_ok_iff]
    exact ⟨p, amt, q, a, va, b, vb, hp, hamt, hq, ha, hva, hb, hvb, rfl⟩
  · intro hnone
    simp [parse_caps, parse_account, hp, hamt, hq, ha, hnone]
  · intro va hva hnone
    simp [parse_caps, parse_account, hp, hamt, hq, ha, hva, hb, hnone]

/-- Witness for C5: a mapped alias pair resolves to the mapped paths, and the
unmapped alias abc yields the unknown-account error naming it. -/
theorem C5_alias_resolution_witness :
    (∃ t, parse settings0 today0 "@KFL 22.34 cba > food".data = .ok t ∧
      t.from_account = "Assets:MasterCard:CBA".data ∧
      t.to_account = "Expense:Food".data) ∧
    parse settings0 today0 "2022-08-14 @MelbourneZoo 33.7 abc > home".data =
      .error (unknownAccountMsg "abc".data) := by
  constructor
  · exact (C5_alias_resolution settings0 today0 "@KFL 22.34 cba > food".data
      ⟨none, some "KFL".data, none, some "22.34".data, none,
       some "cba".data, some "food".data⟩
      "cba".data "food".data rfl rfl rfl).1
      "Assets:MasterCard:CBA".data "Expense:Food".data rfl rfl
  · exact (C5_alias_resolution settings0 today0
      "2022-08-14 @MelbourneZoo 33.7 abc > home".data
      ⟨some "2022-08-14".data, some "MelbourneZoo".data, none,
       some "33.7".data, none, some "abc".data, some "home".data⟩
      "abc".data "home".data rfl rfl rfl).2.1 rfl

/-! Claim C10: the rendering ends in one newline and appends leave one blank
line between entries. -/

theorem toLedgerText_head (t : Transaction) :
    (toLedgerText t).head? = t.date.head?.or (some ' ') := by
  cases hh : t.date.head? with
  | none => simp [toLedgerText, List.head?_append, hh]
  | some x => simp [toLedgerText, List.head?_append, hh]

theorem C10_trailing_newline_and_blank_line (s1 s2 : Settings)
    (today1 today2 in1 in2 : Str) (t1 t2 : Transaction) (C sha1 sha2 : Str)
    (cs : Nat) (sg : GetResp) (put : Nat)
    (h1 : parse s1 today1 in1 = .ok t1) (h2 : parse s2 today2 in2 = .ok t2)
    (htd : today2.head? ≠ some '\n') (hput : put = 200 ∨ put = 201) :
    ∃ u, toLedgerText t1 = u ++ ['\n'] ∧ u.getLast? ≠ some '\n' ∧
      (toLedgerText t2).head? ≠ some '\n' ∧
      save ⟨.ok C sha1, cs, sg, put⟩ t1 =
        (some (C ++ "\n".data ++ toLedgerText t1), .ok (toLedgerText t1)) ∧
      save ⟨.ok (C ++ "\n".data ++ toLedgerText t1) sha2, cs, sg, put⟩ t2 =
        (some ((C ++ "\n".data ++ u) ++ '\n' :: '\n' :: toLedgerText t2),
         .ok (toLedgerText t2)) := by
  cases hc1 : capturesOf in1 with
  | none => exact absurd h1 (by simp [parse, hc1])
  | some caps1 =>
  cases hc2 : capturesOf in2 with
  | none => exact absurd h2 (by simp [parse, hc2])
  | some caps2 =>
  have wf1 := capturesOf_wf hc1
  have wf2 := capturesOf_wf hc2
  rw [parse_eq_of_captures hc1, parse_caps_ok_iff] at h1
  rw [parse_eq_of_captures hc2, parse_caps_ok_iff] at h2
  obtain ⟨p1, a1, q1, f1, vf1, b1, vb1, hp1, ha1, hq1, hf1, hvf1, hb1, hvb1,
    ht1⟩ := h1
  obtain ⟨p2, a2, q2, f2, vf2, b2, vb2, hp2, ha2, hq2, hf2, hvf2, hb2, hvb2,
    ht2⟩ := h2
  have hcur : t1.currency = caps1.currency.getD "AUD".data := by rw [ht1]
  have hdate2 : t2.date = caps2.date.getD today2 := by rw [ht2]
  have hcne : t1.currency ≠ [] := by
    rw [hcur]
    cases hcc : caps1.currency with
    | none => simp
    | some cu =>
      obtain ⟨x, y, z, hcu, -, -, -⟩ := wf1.currency_wf cu hcc
      simp [hcu]
  have hclast : t1.currency.getLast? ≠ some '\n' := by
    rw [hcur]
    cases hcc : caps1.currency with
    | none => decide
    | some cu =>
      obtain ⟨x, y, z, hcu, hx, hy, hz⟩ := wf1.currency_wf cu hcc
      have hz2 : z ≠ '\n' := by
        intro e
        rw [e] at hz
        exact absurd hz (by decide)
      simp only [hcu, Option.getD_some]
      rw [show ([x, y, z] : Str).getLast? = some z from rfl]
      simp [hz2]
  have hd2 : t2.date.head? ≠ some '\n' := by
    rw [hdate2]
    cases hcd : caps2.date with
    | none => simpa using htd
    | some dd =>
      obtain ⟨x, r, hddx, hx⟩ := wf2.date_wf dd hcd
      have hx2 : x ≠ '\n' := by
        intro e
        rw [e] at hx
        exact absurd hx (by decide)
      simp [hddx, hx2]
  refine ⟨t1.date ++ " * \"".data ++ t1.payee ++ "\" \"".data ++
    t1.narration ++ "\"\n  ".data ++ t1.from_account ++ "        -".data ++
    fmt2 t1.amount ++ " ".data ++ t1.currency ++ "\n  ".data ++
    t1.to_account ++ "        ".data ++ fmt2 t1.amount ++ " ".data ++
    t1.currency, rfl, ?_, ?_, ?_, ?_⟩
  · rw [List.getLast?_append_of_ne_nil _ hcne]
    exact hclast
  · rw [toLedgerText_head]
    cases hh : t2.date.head? with
    | none => simp
    | some x =>
      rw [hh] at hd2
      have : x ≠ '\n' := fun e => hd2 (by rw [e])
      simp [this]
  · rcases hput with rfl | rfl <;> simp [save]
  · have hu : toLedgerText t1 = (t1.date ++ " * \"".data ++ t1.payee ++
      "\" \"".data ++ t1.narration ++ "\"\n  ".data ++ t1.from_account ++
      "        -".data ++ fmt2 t1.amount ++ " ".data ++ t1.currency ++
      "\n  ".data ++ t1.to_account ++ "        ".data ++ fmt2 t1.amount ++
      " ".data ++ t1.currency) ++ ['\n'] := rfl
    rcases hput with rfl | rfl <;> simp [save, hu, List.append_assoc]

/-- Witness for C10 with two concrete parses and a concrete script. -/
theorem C10_trailing_newline_and_blank_line_witness :
    ∃ u, toLedgerText txExample = u ++ ['\n'] ∧ u.getLast? ≠ some '\n' ∧
      (toLedgerText txExampleDefDate).head? ≠ some '\n' ∧
      save ⟨.ok "old".data "sha".data, 0, .notFound, 200⟩ txExample =
        (some ("old".data ++ "\n".data ++ toLedgerText txExample),
         .ok (toLedgerText txExample)) ∧
      save ⟨.ok ("old".data ++ "\n".data ++ toLedgerText txExample)
          "shb".data, 0, .notFound, 200⟩ txExampleDefDate =
        (some (("old".data ++ "\n".data ++ u) ++
           '\n' :: '\n' :: toLedgerText txExampleDefDate),
         .ok (toLedgerText txExampleDefDate)) :=
  C10_trailing_newline_and_blank_line settings0 settings0 today0 today0
    "2021-09-08 @KFC hamburger 12.40 AUD cba > food".data
    "@KFC hamburger 12.40 AUD cba > food".data
    txExample txExampleDefDate "old".data "sha".data "shb".data 0 .notFound
    200 rfl rfl (by decide) (Or.inl rfl)

end Beancount
